import Mathlib

/-!
Verification of the eb90 streaming framer/deframer.

This file gives a shallow embedding of the library's core:
the CRC-16/ARC checksum, the frame encoder, and the incremental
frame parser operating over a two-slice (possibly wrapped) buffer
view, together with theorems settling the specification claims.

Bytes are modelled as `Nat` values (with `< 256` hypotheses where a
result depends on them being bytes); 16-bit machine words are `Nat`
values with explicit `% 65536` where the source truncates.
-/

namespace Eb90

/-- Start-of-frame magic marker (`STX` constant in `src/lib.rs`). -/
def STX : List Nat := [0xeb, 0x90]

/-- End-of-frame magic marker (`ETX` constant in `src/lib.rs`). -/
def ETX : List Nat := [0xc5, 0x79]

/-- Size of the big-endian length field (`LEN_SIZE` in `src/lib.rs`). -/
def LEN_SIZE : Nat := 2

/-- Size of the big-endian checksum field (`CRC_SIZE` in `src/lib.rs`). -/
def CRC_SIZE : Nat := 2

/-- Header size: STX plus length field (`HEADER_SIZE` in `src/lib.rs`). -/
def HEADER_SIZE : Nat := STX.length + LEN_SIZE

/-- Footer size: checksum field plus ETX (`FOOTER_SIZE` in `src/lib.rs`). -/
def FOOTER_SIZE : Nat := CRC_SIZE + ETX.length

/-! Checksum model: CRC-16/ARC

`src/crc.rs` instantiates the external `crc` crate with the
`CRC_16_ARC` parameter set (poly `0x8005`, init `0`, refin, refout,
xorout `0`).  The reflected bitwise form of that algorithm processes a
byte by xoring it into the low bits of the running value and then
performing eight reflected polynomial division steps with the
bit-reversed polynomial `0xA001`.  The repository's own test vector
(`crc.rs`: checksum of `DE AD BE EF` is `E5 9B`) validates this model
(see the claim C8 theorem below). -/

/-- One reflected polynomial-division bit step of CRC-16/ARC. -/
def crcBit (c : Nat) : Nat :=
  if c % 2 = 1 then (c / 2) ^^^ 0xa001 else c / 2

/-- Fold one input byte into the running CRC-16/ARC value. -/
def crcByteStep (c b : Nat) : Nat :=
  crcBit^[8] (c ^^^ b)

/-- Feed a list of bytes into a running CRC value (the `Digest::update`
operation of the `crc` crate). -/
def crc16Update (c : Nat) (l : List Nat) : Nat :=
  l.foldl crcByteStep c

/-- CRC-16/ARC checksum of a byte sequence (`crc::ALGO.checksum` as used
in `src/crc.rs` and `src/codec.rs`; init and xorout are both zero). -/
def crc16 (l : List Nat) : Nat :=
  crc16Update 0 l

/-! Two-slice helpers (`src/parser.rs`) -/

/-- Big-endian 16-bit value of two bytes (`u16::from_be_bytes`). -/
def u16be (x y : Nat) : Nat := 256 * x + y

/-- Big-endian 16-bit value of the first two entries of a list
(`u16::from_be_bytes` applied to a 2-byte array constant). -/
def u16beOf (l : List Nat) : Nat := u16be (l.getD 0 0) (l.getD 1 0)

/-- Big-endian byte encoding of a 16-bit value (`u16::to_be_bytes`,
with the `as u16` truncation made explicit). -/
def be16 (n : Nat) : List Nat := [n % 65536 / 256, n % 256]

/-- Tail of a two-slice view from logical offset `start`
(`slices_start` in `src/parser.rs`). -/
def slices_start (p : List Nat × List Nat) (start : Nat) : List Nat × List Nat :=
  if start < p.1.length then (p.1.drop start, p.2)
  else ([], p.2.drop (start - p.1.length))

/-- Beginning of a two-slice view up to exclusive logical offset `endx`
(`slices_endx` in `src/parser.rs`).  Note the second branch returns only
a sub-slice of the second slice, exactly as the source does. -/
def slices_endx (p : List Nat × List Nat) (endx : Nat) : List Nat × List Nat :=
  if endx ≤ p.1.length then (p.1.take endx, [])
  else ([], p.2.take (endx - p.1.length))

/-- Big-endian 16-bit read at a logical index of a two-slice view,
possibly straddling the slice boundary (`slices_read_u16` in
`src/parser.rs`; the three branches are the `Greater`, `Less` and
`Equal` arms of the source's `match a.len().cmp(&t)`). -/
def slices_read_u16 (p : List Nat × List Nat) (index : Nat) : Nat :=
  if index + 1 < p.1.length then
    u16be (p.1.getD index 0) (p.1.getD (index + 1) 0)
  else if p.1.length < index + 1 then
    u16be (p.2.getD (index - p.1.length) 0) (p.2.getD (index + 1 - p.1.length) 0)
  else
    u16be (p.1.getD index 0) (p.2.getD 0 0)

/-! Parser data types (`src/parser.rs`) -/

/-- Zero-copy handle to a validated frame body (`FrameToken`). -/
structure FrameToken where
  body_size : Nat
deriving DecidableEq

/-- Eviction instruction carrying a byte count (`ConsumeToken`). -/
structure ConsumeToken where
  len : Nat
deriving DecidableEq

/-- Junk classification (`JunkKind`). -/
inductive JunkKind where
  | invalidStx
  | invalidLength
  | invalidCrc
  | invalidEtx
deriving DecidableEq

/-- Read failure (`Error`): more data needed, or a classified junk
region with a mandatory eviction length. -/
inductive Error where
  | incomplete
  | junk (token : ConsumeToken) (kind : JunkKind)
deriving DecidableEq

/-- Result of `Parser::read` (Rust `Result<FrameToken, Error>`). -/
inductive ReadResult where
  | ok (ft : FrameToken)
  | err (e : Error)
deriving DecidableEq

/-- Converting a frame token into an eviction instruction
(`impl From<FrameToken> for ConsumeToken`): the whole frame,
body plus header plus footer, is evicted. -/
def consumeTokenOfFrame (ft : FrameToken) : ConsumeToken :=
  ⟨ft.body_size + HEADER_SIZE + FOOTER_SIZE⟩

/-- Parser state: one buffer of fixed capacity whose logical content is
the concatenation `a ++ b` of the two slices returned by the `Buffer`
trait's `data()` (the second slice is the wrapped-around part of a ring
backend and is empty for contiguous backends). -/
structure Parser where
  cap : Nat
  a : List Nat
  b : List Nat
deriving DecidableEq

/-- Buffered length (`Buffer::len`). -/
def Parser.len (st : Parser) : Nat := st.a.length + st.b.length

/-- Logical buffered content: concatenation of the two slices. -/
def Parser.content (st : Parser) : List Nat := st.a ++ st.b

/-- Two-slice view of the buffered content (`Buffer::data`). -/
def Parser.data (st : Parser) : List Nat × List Nat := (st.a, st.b)

/-- First index of an STX window in a single slice
(`windows(STX.len()).position(|win| win == STX)`). -/
def stxPos : List Nat → Option Nat
  | x :: y :: rest =>
    if x = 0xeb ∧ y = 0x90 then some 0
    else (stxPos (y :: rest)).map (· + 1)
  | _ => none

/-- STX search over the two-slice view (`Parser::find_stx`): first a
window scan of slice `a`, then — only when `a` has odd length — the
pair straddling the slice boundary, then a window scan of slice `b`
offset by `a.len()`. -/
def find_stx (st : Parser) : Option Nat :=
  match stxPos st.a with
  | some p => some p
  | none =>
    if st.a.length % 2 = 1 ∧ st.b ≠ [] ∧
        st.a.getD (st.a.length - 1) 0 = 0xeb ∧ st.b.getD 0 0 = 0x90 then
      some (st.a.length - 1)
    else
      match stxPos st.b with
      | some p => some (p + st.a.length)
      | none => none

/-- Append input to the buffer, bounded by free capacity
(`Parser::fill`): accepts `min(input.len, capacity - len)` bytes and
copies exactly that prefix (the `Buffer::write` of both backends
appends at the logical back). -/
def Parser.fill (st : Parser) (input : List Nat) : Nat × Parser :=
  let copy_len := min input.length (st.cap - st.len)
  (copy_len, { st with b := st.b ++ input.take copy_len })

/-- Evict bytes from the buffer front (`Parser::consume` delegating to
`Buffer::consume`, which pops from the logical front across both
slices). -/
def Parser.consume (st : Parser) (t : ConsumeToken) : Parser :=
  if t.len ≤ st.a.length then { st with a := st.a.drop t.len }
  else { st with a := [], b := st.b.drop (t.len - st.a.length) }

/-- Length field of an offset-0 candidate frame (`Parser::body_size`):
big-endian 16-bit read immediately after the STX marker. -/
def Parser.body_size (st : Parser) : Nat :=
  slices_read_u16 st.data STX.length

/-- One read attempt (`Parser::read`).  `max_frame_size()` is the
buffer's capacity, inlined here, and the source's local bindings
(`frame_size`, `tail = slices_start(data, HEADER_SIZE)`,
`footer = slices_start(tail, body_size)`,
`body = slices_endx(tail, body_size)`, `expected_crc`, `etx`) are
inlined at their use sites. -/
def Parser.read (st : Parser) : ReadResult :=
  if st.len < HEADER_SIZE + FOOTER_SIZE then .err .incomplete
  else
    match find_stx st with
    | some 0 =>
      if st.body_size + HEADER_SIZE + FOOTER_SIZE > st.cap then
        .err (.junk ⟨STX.length⟩ .invalidLength)
      else if st.len < st.body_size + HEADER_SIZE + FOOTER_SIZE then
        .err .incomplete
      else if slices_read_u16
          (slices_start (slices_start st.data HEADER_SIZE) st.body_size)
          CRC_SIZE ≠ u16beOf ETX then
        .err (.junk ⟨STX.length⟩ .invalidEtx)
      else if slices_read_u16
          (slices_start (slices_start st.data HEADER_SIZE) st.body_size) 0 ≠
          crc16Update (crc16Update 0
            (slices_endx (slices_start st.data HEADER_SIZE) st.body_size).1)
            (slices_endx (slices_start st.data HEADER_SIZE) st.body_size).2
          then
        .err (.junk ⟨STX.length⟩ .invalidCrc)
      else
        .ok ⟨st.body_size⟩
    | some pos => .err (.junk ⟨pos⟩ .invalidStx)
    | none => .err (.junk ⟨st.len - (STX.length - 1)⟩ .invalidStx)

/-- Zero-copy body view of a validated frame (`Parser::get_body`). -/
def Parser.get_body (st : Parser) (t : FrameToken) : List Nat × List Nat :=
  slices_endx (slices_start st.data HEADER_SIZE) t.body_size

/-- The checksum field as the parser reads it for an offset-0 candidate
whose body has the given size (the `expected_crc` of `Parser::read`). -/
def storedCrc (st : Parser) (body_size : Nat) : Nat :=
  slices_read_u16 (slices_start (slices_start st.data HEADER_SIZE) body_size) 0

/-! Encoder (`src/codec.rs`) -/

/-- The encoder's output, mutating the destination in place
(`Encoder::encode`): the first component is `true` for `Ok(())` and
`false` for the body-too-large error; the second is the destination
buffer after the call.  Note the source appends STX to `dst` before
checking the length, so the failure case leaves STX appended. -/
def encoderEncode (body dst : List Nat) : Bool × List Nat :=
  let dst1 := dst ++ STX
  if body.length > 65535 then (false, dst1)
  else (true, dst1 ++ be16 body.length ++ body ++ be16 (crc16 body) ++ ETX)

/-- Wire image of one frame, as produced by a successful
`Encoder::encode`: STX, big-endian length, body, big-endian CRC, ETX. -/
def encodeFrame (body : List Nat) : List Nat :=
  STX ++ be16 body.length ++ body ++ be16 (crc16 body) ++ ETX

/-! Stream adapter (`src/codec.rs`, `Decoder::decode`) -/

/-- One adapter outcome (the `Decoded` enum extended with the
`Incomplete`/`None` case and the applied eviction length). -/
inductive Outcome where
  | frame (body : List Nat)
  | junkOut (kind : JunkKind) (evict : Nat)
  | incomplete
deriving DecidableEq

/-- One `Decoder::decode` cycle after the stream has been filled: read
once; on a frame copy the two body slices and consume the frame; on
junk consume the junk span; on `Incomplete` leave the buffer alone. -/
def decodeStep (st : Parser) : Outcome × Parser :=
  match st.read with
  | .ok ft =>
    (.frame ((st.get_body ft).1 ++ (st.get_body ft).2),
      st.consume (consumeTokenOfFrame ft))
  | .err .incomplete => (.incomplete, st)
  | .err (.junk t kind) => (.junkOut kind t.len, st.consume t)

/-- Iterated `decodeStep`, collecting the outcome sequence. -/
def decodeSeq (st : Parser) : Nat → List Outcome
  | 0 => []
  | n + 1 =>
    let s := decodeStep st
    s.1 :: decodeSeq s.2 n

/-- No STX window occurs inside a single slice: the property the
codec round-trip test assumes of its junk segment. -/
def noStx (j : List Nat) : Prop :=
  ∀ i < j.length - 1, ¬(j.getD i 0 = 0xeb ∧ j.getD (i + 1) 0 = 0x90)

instance (j : List Nat) : Decidable (noStx j) := by
  unfold noStx; infer_instance

/-! Helper lemmas -/

theorem crcBit_lt {c : Nat} (h : c < 65536) : crcBit c < 65536 := by
  unfold crcBit
  split
  · have h1 : c / 2 < 2 ^ 16 := by omega
    have h2 : (0xa001 : Nat) < 2 ^ 16 := by norm_num
    have := Nat.xor_lt_two_pow h1 h2
    simpa using this
  · omega

theorem crcBit_iterate_lt {c : Nat} (n : Nat) (h : c < 65536) :
    crcBit^[n] c < 65536 := by
  induction n generalizing c with
  | zero => simpa using h
  | succ k ih =>
    rw [Function.iterate_succ_apply]
    exact ih (crcBit_lt h)

theorem crcByteStep_lt {c b : Nat} (hc : c < 65536) (hb : b < 256) :
    crcByteStep c b < 65536 := by
  unfold crcByteStep
  apply crcBit_iterate_lt
  have h1 : c < 2 ^ 16 := by omega
  have h2 : b < 2 ^ 16 := by omega
  have := Nat.xor_lt_two_pow h1 h2
  simpa using this

theorem crc16Update_lt {c : Nat} {l : List Nat} (hc : c < 65536)
    (hl : ∀ x ∈ l, x < 256) : crc16Update c l < 65536 := by
  induction l generalizing c with
  | nil => simpa [crc16Update] using hc
  | cons x xs ih =>
    have hx : x < 256 := hl x (by simp)
    have hxs : ∀ y ∈ xs, y < 256 := fun y hy => hl y (by simp [hy])
    simpa [crc16Update] using ih (crcByteStep_lt hc hx) hxs

theorem crc16_lt {l : List Nat} (hl : ∀ x ∈ l, x < 256) : crc16 l < 65536 :=
  crc16Update_lt (by norm_num) hl

theorem crc16Update_nil (c : Nat) : crc16Update c [] = c := rfl

theorem u16be_be16 {n : Nat} (h : n < 65536) :
    u16be (n % 65536 / 256) (n % 256) = n := by
  have hmod : n % 65536 = n := Nat.mod_eq_of_lt h
  rw [hmod]
  unfold u16be
  omega

theorem slices_start_nil (b : List Nat) (s : Nat) :
    slices_start ([], b) s = ([], b.drop s) := by
  simp [slices_start]

theorem slices_endx_nil (b : List Nat) (e : Nat) :
    slices_endx ([], b) e = ([], b.take e) := by
  unfold slices_endx
  split
  · simp_all
  · simp

theorem slices_read_u16_nil (b : List Nat) (i : Nat) :
    slices_read_u16 ([], b) i = u16be (b.getD i 0) (b.getD (i + 1) 0) := by
  simp [slices_read_u16]

theorem stxPos_cons_cons (x y : Nat) (rest : List Nat) :
    stxPos (x :: y :: rest) =
      if x = 0xeb ∧ y = 0x90 then some 0
      else (stxPos (y :: rest)).map (· + 1) := rfl

theorem stxPos_le {l : List Nat} {p : Nat} (h : stxPos l = some p) :
    p + 2 ≤ l.length := by
  induction l generalizing p with
  | nil => simp [stxPos] at h
  | cons x xs ih =>
    cases xs with
    | nil => simp [stxPos] at h
    | cons y rest =>
      rw [stxPos_cons_cons] at h
      split at h
      · simp at h
        simp [← h]
      · cases hq : stxPos (y :: rest) with
        | none => simp [hq] at h
        | some q =>
          have := ih hq
          simp [hq] at h
          simp at this ⊢
          omega

theorem find_stx_nil (cap : Nat) (b : List Nat) :
    find_stx ⟨cap, [], b⟩ = stxPos b := by
  unfold find_stx
  simp [stxPos]
  cases stxPos b <;> simp

theorem noStx_tail {x : Nat} {j : List Nat} (h : noStx (x :: j)) : noStx j := by
  intro i hi hcontra
  have hi2 : i + 1 < (x :: j).length - 1 := by
    simp at hi ⊢
    omega
  exact h (i + 1) hi2 (by simpa using hcontra)

theorem stxPos_append {j : List Nat} (u : List Nat) (h : noStx j) :
    stxPos (j ++ 0xeb :: 0x90 :: u) = some j.length := by
  induction j with
  | nil => simp [stxPos]
  | cons x j' ih =>
    have htail := noStx_tail h
    have ihres := ih htail
    cases j' with
    | nil =>
      rw [List.cons_append, List.nil_append, stxPos_cons_cons]
      have hne : ¬(x = 0xeb ∧ (0xeb : Nat) = 0x90) := by
        intro hc
        exact absurd hc.2 (by decide)
      simp [hne, stxPos]
    | cons z r =>
      have hhead : ¬(x = 0xeb ∧ z = 0x90) := by
        have h0 := h 0 (by simp)
        simpa [List.getD] using h0
      rw [List.cons_append, List.cons_append, stxPos_cons_cons]
      rw [List.cons_append] at ihres
      rw [ihres]
      simp [hhead]

theorem find_stx_le {st : Parser} {p : Nat} (h : find_stx st = some p) :
    p + 2 ≤ st.len := by
  unfold find_stx at h
  unfold Parser.len
  cases ha : stxPos st.a with
  | some q =>
    rw [ha] at h
    have hqp : q = p := by simpa using h
    have h2 := stxPos_le ha
    omega
  | none =>
    rw [ha] at h
    by_cases hcond : st.a.length % 2 = 1 ∧ st.b ≠ [] ∧
        st.a.getD (st.a.length - 1) 0 = 0xeb ∧ st.b.getD 0 0 = 0x90
    · rw [if_pos hcond] at h
      have hp : st.a.length - 1 = p := by simpa using h
      have hb1 : 0 < st.b.length := List.length_pos.mpr hcond.2.1
      have ha1 : 1 ≤ st.a.length := by
        rcases hcond with ⟨hodd, -⟩
        omega
      omega
    · rw [if_neg hcond] at h
      cases hb : stxPos st.b with
      | some q =>
        rw [hb] at h
        have hqp : q + st.a.length = p := by simpa using h
        have h2 := stxPos_le hb
        omega
      | none =>
        rw [hb] at h
        simp at h

theorem fill_fresh {cap : Nat} {stream : List Nat} (h : stream.length ≤ cap) :
    Parser.fill ⟨cap, [], []⟩ stream = (stream.length, ⟨cap, [], stream⟩) := by
  unfold Parser.fill
  simp [Parser.len, Nat.min_eq_left h]

theorem consume_nil (cap : Nat) (b : List Nat) (n : Nat) :
    Parser.consume ⟨cap, [], b⟩ ⟨n⟩ = ⟨cap, [], b.drop n⟩ := by
  unfold Parser.consume
  split
  · rename_i hle
    simp at hle
    simp [hle]
  · simp

theorem encodeFrame_append (body rest : List Nat) :
    encodeFrame body ++ rest =
      0xeb :: 0x90 :: (body.length % 65536 / 256) :: (body.length % 256) ::
        (body ++ (crc16 body % 65536 / 256) :: (crc16 body % 256) ::
          0xc5 :: 0x79 :: rest) := by
  simp [encodeFrame, STX, ETX, be16]

theorem encodeFrame_length (body : List Nat) :
    (encodeFrame body).length = body.length + 8 := by
  simp [encodeFrame, STX, ETX, be16]

theorem read_cons_frame (cap L c : Nat) (body rest : List Nat)
    (hbl : body.length = L) (hL : L ≤ 65535)
    (hc : c < 65536) (hcrc : crc16 body = c)
    (hcap : L + 8 ≤ cap) :
    Parser.read ⟨cap, [],
      0xeb :: 0x90 :: (L % 65536 / 256) :: (L % 256) ::
        (body ++ (c % 65536 / 256) :: (c % 256) :: 0xc5 :: 0x79 :: rest)⟩ =
      .ok ⟨L⟩ := by
  set X : List Nat := (c % 65536 / 256) :: (c % 256) :: 0xc5 :: 0x79 :: rest with hX
  set st : Parser := ⟨cap, [],
    0xeb :: 0x90 :: (L % 65536 / 256) :: (L % 256) :: (body ++ X)⟩ with hst
  have hhf : HEADER_SIZE + FOOTER_SIZE = 8 := by decide
  have hlenst : st.len = L + 8 + rest.length := by
    simp [hst, hX, Parser.len]
    omega
  have hfind : find_stx st = some 0 := by
    rw [hst, hX]
    rfl
  have hbs : st.body_size = L := by
    rw [hst]
    show u16be (L % 65536 / 256) (L % 256) = L
    exact u16be_be16 (by omega)
  have hH : HEADER_SIZE = 4 := by decide
  have hF : FOOTER_SIZE = 4 := by decide
  unfold Parser.read
  rw [if_neg (by rw [hlenst, hhf]; omega)]
  rw [hfind]
  simp only [hbs]
  rw [if_neg (show ¬ L + HEADER_SIZE + FOOTER_SIZE > cap by rw [hH, hF]; omega)]
  rw [if_neg (show ¬ st.len < L + HEADER_SIZE + FOOTER_SIZE by
    rw [hlenst, hH, hF]; omega)]
  have htail : slices_start st.data HEADER_SIZE = ([], body ++ X) := rfl
  have hfooter : slices_start (slices_start st.data HEADER_SIZE) L = ([], X) := by
    rw [htail, slices_start_nil, List.drop_left' hbl]
  have hbody2 : slices_endx (slices_start st.data HEADER_SIZE) L = ([], body) := by
    rw [htail, slices_endx_nil, List.take_left' hbl]
  have hetx : slices_read_u16 ([], X) CRC_SIZE = u16beOf ETX := by
    rw [hX]; rfl
  have hexp : slices_read_u16 ([], X) 0 = c := by
    rw [hX, slices_read_u16_nil]
    show u16be (c % 65536 / 256) (c % 256) = c
    exact u16be_be16 hc
  rw [hfooter, hbody2, hexp, hetx]
  have hcrc2 : crc16Update 0 body = c := hcrc
  simp [crc16Update_nil, hcrc2]

theorem header_size_eq : HEADER_SIZE = 4 := by decide

theorem footer_size_eq : FOOTER_SIZE = 4 := by decide

theorem read_frame_front (cap : Nat) (body rest : List Nat)
    (hbytes : ∀ x ∈ body, x < 256) (hlen : body.length ≤ 65535)
    (hcap : body.length + 8 ≤ cap) :
    Parser.read ⟨cap, [], encodeFrame body ++ rest⟩ = .ok ⟨body.length⟩ := by
  rw [encodeFrame_append]
  exact read_cons_frame cap body.length (crc16 body) body rest rfl hlen
    (crc16_lt hbytes) rfl hcap

theorem get_body_front (cap : Nat) (body rest : List Nat) :
    Parser.get_body ⟨cap, [], encodeFrame body ++ rest⟩ ⟨body.length⟩ =
      ([], body) := by
  unfold Parser.get_body
  rw [encodeFrame_append]
  rw [show slices_start (Parser.data ⟨cap, [],
      0xeb :: 0x90 :: (body.length % 65536 / 256) :: (body.length % 256) ::
        (body ++ (crc16 body % 65536 / 256) :: (crc16 body % 256) ::
          0xc5 :: 0x79 :: rest)⟩) HEADER_SIZE =
    ([], body ++ (crc16 body % 65536 / 256) :: (crc16 body % 256) ::
        0xc5 :: 0x79 :: rest) from rfl]
  rw [slices_endx_nil, List.take_left]

theorem storedCrc_front (cap : Nat) (body rest : List Nat)
    (hbytes : ∀ x ∈ body, x < 256) :
    storedCrc ⟨cap, [], encodeFrame body ++ rest⟩ body.length = crc16 body := by
  unfold storedCrc
  rw [encodeFrame_append]
  rw [show slices_start (Parser.data ⟨cap, [],
      0xeb :: 0x90 :: (body.length % 65536 / 256) :: (body.length % 256) ::
        (body ++ (crc16 body % 65536 / 256) :: (crc16 body % 256) ::
          0xc5 :: 0x79 :: rest)⟩) HEADER_SIZE =
    ([], body ++ (crc16 body % 65536 / 256) :: (crc16 body % 256) ::
        0xc5 :: 0x79 :: rest) from rfl]
  rw [slices_start_nil, List.drop_left, slices_read_u16_nil]
  show u16be (crc16 body % 65536 / 256) (crc16 body % 256) = crc16 body
  exact u16be_be16 (crc16_lt hbytes)

theorem read_junk_front (cap : Nat) (junk u : List Nat)
    (hne : junk ≠ []) (hnostx : noStx junk)
    (h8 : 8 ≤ junk.length + (u.length + 2)) :
    Parser.read ⟨cap, [], junk ++ 0xeb :: 0x90 :: u⟩ =
      .err (.junk ⟨junk.length⟩ .invalidStx) := by
  have hfind : find_stx ⟨cap, [], junk ++ 0xeb :: 0x90 :: u⟩ =
      some junk.length := by
    rw [find_stx_nil]
    exact stxPos_append u hnostx
  have hlen : Parser.len ⟨cap, [], junk ++ 0xeb :: 0x90 :: u⟩ =
      junk.length + (u.length + 2) := by
    simp only [Parser.len, List.length_append, List.length_cons,
      List.length_nil]
    omega
  obtain ⟨k, hk⟩ : ∃ k, junk.length = k + 1 := by
    cases junk with
    | nil => exact absurd rfl hne
    | cons x xs => exact ⟨xs.length, by simp⟩
  unfold Parser.read
  rw [if_neg (show ¬ Parser.len ⟨cap, [], junk ++ 0xeb :: 0x90 :: u⟩ <
      HEADER_SIZE + FOOTER_SIZE by
    rw [hlen, header_size_eq, footer_size_eq]
    omega)]
  rw [hfind, hk]
  rfl

theorem encodeFrame_cons (body : List Nat) :
    encodeFrame body =
      0xeb :: 0x90 :: (body.length % 65536 / 256) :: (body.length % 256) ::
        (body ++ [crc16 body % 65536 / 256, crc16 body % 256, 0xc5, 0x79]) := by
  simp [encodeFrame, STX, ETX, be16]

theorem decodeStep_frame (cap : Nat) (body rest : List Nat)
    (hbytes : ∀ x ∈ body, x < 256) (hlen : body.length ≤ 65535)
    (hcap : body.length + 8 ≤ cap) :
    decodeStep ⟨cap, [], encodeFrame body ++ rest⟩ =
      (.frame body, ⟨cap, [], rest⟩) := by
  unfold decodeStep
  rw [read_frame_front cap body rest hbytes hlen hcap]
  have htok : consumeTokenOfFrame ⟨body.length⟩ =
      ⟨body.length + HEADER_SIZE + FOOTER_SIZE⟩ := rfl
  simp only [htok, get_body_front, consume_nil]
  have hdl : (encodeFrame body ++ rest).drop
      (body.length + HEADER_SIZE + FOOTER_SIZE) = rest := by
    apply List.drop_left'
    rw [encodeFrame_length, header_size_eq, footer_size_eq]
  rw [hdl]
  simp

theorem decodeStep_junk (cap : Nat) (junk u : List Nat)
    (hne : junk ≠ []) (hnostx : noStx junk)
    (h8 : 8 ≤ junk.length + (u.length + 2)) :
    decodeStep ⟨cap, [], junk ++ 0xeb :: 0x90 :: u⟩ =
      (.junkOut .invalidStx junk.length, ⟨cap, [], 0xeb :: 0x90 :: u⟩) := by
  unfold decodeStep
  rw [read_junk_front cap junk u hne hnostx h8]
  simp only [consume_nil]
  rw [List.drop_left]

theorem decodeStep_empty (cap : Nat) :
    decodeStep ⟨cap, [], []⟩ = (.incomplete, ⟨cap, [], []⟩) := rfl

theorem decodeSeq_succ (st : Parser) (n : Nat) :
    decodeSeq st (n + 1) = (decodeStep st).1 :: decodeSeq (decodeStep st).2 n :=
  rfl

theorem decodeSeq_zero (st : Parser) : decodeSeq st 0 = [] := rfl

/-! Claim theorems -/

/-- C1: Round-trip.  For every body byte sequence of length at most
65,535, filling all of `encodeFrame body` into a fresh parser whose
buffer capacity is at least `body.length + 8` accepts every encoded
byte; `read` then returns `ok` with a frame token whose `get_body`
slice pair concatenates to exactly the original body, the stored
checksum field equals the CRC-16 of the body, and converting the token
yields an eviction length of `body.length + 8`. -/
theorem c1_round_trip (body : List Nat) (cap : Nat)
    (hbytes : ∀ x ∈ body, x < 256) (hlen : body.length ≤ 65535)
    (hcap : body.length + 8 ≤ cap) :
    (Parser.fill ⟨cap, [], []⟩ (encodeFrame body)).1 =
        (encodeFrame body).length ∧
    Parser.read (Parser.fill ⟨cap, [], []⟩ (encodeFrame body)).2 =
        .ok ⟨body.length⟩ ∧
    (Parser.get_body (Parser.fill ⟨cap, [], []⟩ (encodeFrame body)).2
          ⟨body.length⟩).1 ++
        (Parser.get_body (Parser.fill ⟨cap, [], []⟩ (encodeFrame body)).2
          ⟨body.length⟩).2 = body ∧
    storedCrc (Parser.fill ⟨cap, [], []⟩ (encodeFrame body)).2 body.length =
        crc16 body ∧
    (consumeTokenOfFrame ⟨body.length⟩).len = body.length + 8 := by
  have hstream : (encodeFrame body).length ≤ cap := by
    rw [encodeFrame_length]; omega
  rw [fill_fresh hstream]
  refine ⟨rfl, ?_, ?_, ?_, ?_⟩
  · show Parser.read ⟨cap, [], encodeFrame body⟩ = .ok ⟨body.length⟩
    have h := read_frame_front cap body [] hbytes hlen hcap
    rw [List.append_nil] at h
    exact h
  · show (Parser.get_body ⟨cap, [], encodeFrame body⟩ ⟨body.length⟩).1 ++
        (Parser.get_body ⟨cap, [], encodeFrame body⟩ ⟨body.length⟩).2 = body
    have g := get_body_front cap body []
    rw [List.append_nil] at g
    rw [g]
    rfl
  · show storedCrc ⟨cap, [], encodeFrame body⟩ body.length = crc16 body
    have g := storedCrc_front cap body [] hbytes
    rw [List.append_nil] at g
    exact g
  · show body.length + HEADER_SIZE + FOOTER_SIZE = body.length + 8
    rw [header_size_eq, footer_size_eq]

theorem c1_round_trip_witness :
    Parser.read (Parser.fill ⟨12, [], []⟩
        (encodeFrame [0xde, 0xad, 0xbe, 0xef])).2 =
      .ok ⟨[0xde, 0xad, 0xbe, 0xef].length⟩ :=
  (c1_round_trip [0xde, 0xad, 0xbe, 0xef] 12 (by decide) (by decide)
    (by decide)).2.1

/-- C2: Junk resynchronization.  For bodies `A` and `B` of length at
most 65,535 and a non-empty junk segment containing no STX window,
filling `encodeFrame A ++ junk ++ encodeFrame B` into a fresh parser of
sufficient capacity and driving four read/consume cycles yields exactly:
the frame `A`, one `invalidStx` junk outcome whose eviction length is
the whole junk span, the frame `B`, and then `incomplete`. -/
theorem c2_junk_resync (A junk B : List Nat) (cap : Nat)
    (hA : ∀ x ∈ A, x < 256) (hAlen : A.length ≤ 65535)
    (hB : ∀ x ∈ B, x < 256) (hBlen : B.length ≤ 65535)
    (hne : junk ≠ []) (hnostx : noStx junk)
    (hcap : (encodeFrame A).length + junk.length + (encodeFrame B).length ≤
      cap) :
    decodeSeq (Parser.fill ⟨cap, [], []⟩
        (encodeFrame A ++ junk ++ encodeFrame B)).2 4 =
      [.frame A, .junkOut .invalidStx junk.length, .frame B, .incomplete] := by
  have hlA : (encodeFrame A).length = A.length + 8 := encodeFrame_length A
  have hlB : (encodeFrame B).length = B.length + 8 := encodeFrame_length B
  have hstream : (encodeFrame A ++ junk ++ encodeFrame B).length ≤ cap := by
    simp only [List.length_append]
    omega
  rw [fill_fresh hstream]
  show decodeSeq ⟨cap, [], encodeFrame A ++ junk ++ encodeFrame B⟩
      (0 + 1 + 1 + 1 + 1) =
    [.frame A, .junkOut .invalidStx junk.length, .frame B, .incomplete]
  set uB : List Nat := (B.length % 65536 / 256) :: (B.length % 256) ::
      (B ++ [crc16 B % 65536 / 256, crc16 B % 256, 0xc5, 0x79]) with huB
  have hBcons : encodeFrame B = 0xeb :: 0x90 :: uB := by
    rw [huB]; exact encodeFrame_cons B
  have huBlen : uB.length = B.length + 6 := by
    rw [huB]; simp
  rw [List.append_assoc, hBcons]
  have hcapA : A.length + 8 ≤ cap := by omega
  have hcapB : B.length + 8 ≤ cap := by omega
  have h8 : 8 ≤ junk.length + (uB.length + 2) := by
    rw [huBlen]; omega
  have s1 := decodeStep_frame cap A (junk ++ 0xeb :: 0x90 :: uB) hA hAlen hcapA
  have s2 := decodeStep_junk cap junk uB hne hnostx h8
  have s3 : decodeStep ⟨cap, [], 0xeb :: 0x90 :: uB⟩ =
      (.frame B, ⟨cap, [], []⟩) := by
    have h := decodeStep_frame cap B [] hB hBlen hcapB
    rw [List.append_nil, hBcons] at h
    exact h
  simp only [decodeSeq_succ, decodeSeq_zero, s1, s2, s3, decodeStep_empty]

theorem c2_junk_resync_witness :
    decodeSeq (Parser.fill ⟨21, [], []⟩
        (encodeFrame [0xde, 0xad, 0xbe, 0xef] ++ [0x00] ++
          encodeFrame [])).2 4 =
      [.frame [0xde, 0xad, 0xbe, 0xef],
        .junkOut .invalidStx [0x00].length, .frame [], .incomplete] :=
  c2_junk_resync [0xde, 0xad, 0xbe, 0xef] [0x00] [] 21 (by decide)
    (by decide) (by decide) (by decide) (by decide) (by decide) (by decide)

theorem read_junk_le {st : Parser} {t : ConsumeToken} {k : JunkKind}
    (h : Parser.read st = .err (.junk t k)) : t.len ≤ st.len := by
  have hstx2 : STX.length = 2 := rfl
  unfold Parser.read at h
  split at h
  · simp at h
  · rename_i h8
    rw [header_size_eq, footer_size_eq] at h8
    split at h
    · split at h
      · simp only [ReadResult.err.injEq, Error.junk.injEq] at h
        rw [← h.1, hstx2]
        show (2 : Nat) ≤ st.len
        omega
      · split at h
        · simp at h
        · split at h
          · simp only [ReadResult.err.injEq, Error.junk.injEq] at h
            rw [← h.1, hstx2]
            show (2 : Nat) ≤ st.len
            omega
          · split at h
            · simp only [ReadResult.err.injEq, Error.junk.injEq] at h
              rw [← h.1, hstx2]
              show (2 : Nat) ≤ st.len
              omega
            · simp at h
    · rename_i pos hpos0 heq
      simp only [ReadResult.err.injEq, Error.junk.injEq] at h
      have := find_stx_le heq
      rw [← h.1]
      show pos ≤ st.len
      omega
    · rw [hstx2] at h
      simp only [ReadResult.err.injEq, Error.junk.injEq] at h
      rw [← h.1]
      show st.len - (2 - 1) ≤ st.len
      omega

theorem read_ok_le {st : Parser} {ft : FrameToken}
    (h : Parser.read st = .ok ft) :
    ft.body_size + HEADER_SIZE + FOOTER_SIZE ≤ st.len := by
  unfold Parser.read at h
  split at h
  · simp at h
  · split at h
    · split at h
      · simp at h
      · split at h
        · simp at h
        · split at h
          · simp at h
          · split at h
            · simp at h
            · rename_i hinc _ _
              simp only [ReadResult.ok.injEq] at h
              rw [← h]
              show st.body_size + HEADER_SIZE + FOOTER_SIZE ≤ st.len
              omega
    · simp at h
    · simp at h

/-- C10 (implicit): every consume token obtainable from one `read` call
— inside a junk error, or by converting a returned frame token — has an
eviction length at most the buffered length, so consuming it
immediately never violates the buffer's evict-no-more-than-buffered
assertion. -/
theorem c10_consume_token_bound (st : Parser) :
    match Parser.read st with
    | .ok ft => (consumeTokenOfFrame ft).len ≤ st.len
    | .err (.junk t _) => t.len ≤ st.len
    | .err .incomplete => True := by
  cases h : Parser.read st with
  | ok ft => exact read_ok_le h
  | err e =>
    cases e with
    | incomplete => trivial
    | junk t k => exact read_junk_le h

/-- C8: Checksum test vector and literal frame.  Under the implemented
CRC-16/ARC parameterization the checksum of `DE AD BE EF` is `E5 9B`,
and filling the 12-byte literal `EB 90 00 04 DE AD BE EF E5 9B C5 79`
into a fresh parser of capacity 12 makes `read` succeed with a frame
whose body is exactly `DE AD BE EF`. -/
theorem c8_literal_vector :
    crc16 [0xde, 0xad, 0xbe, 0xef] = 0xe59b ∧
    Parser.read (Parser.fill ⟨12, [], []⟩
        [0xeb, 0x90, 0x00, 0x04, 0xde, 0xad, 0xbe, 0xef,
          0xe5, 0x9b, 0xc5, 0x79]).2 = .ok ⟨4⟩ ∧
    (Parser.get_body (Parser.fill ⟨12, [], []⟩
        [0xeb, 0x90, 0x00, 0x04, 0xde, 0xad, 0xbe, 0xef,
          0xe5, 0x9b, 0xc5, 0x79]).2 ⟨4⟩).1 ++
      (Parser.get_body (Parser.fill ⟨12, [], []⟩
        [0xeb, 0x90, 0x00, 0x04, 0xde, 0xad, 0xbe, 0xef,
          0xe5, 0x9b, 0xc5, 0x79]).2 ⟨4⟩).2 = [0xde, 0xad, 0xbe, 0xef] := by
  decide

/-- C9: Backpressure bound on `fill`.  For every buffer state (with the
`len ≤ cap` invariant every reachable buffer satisfies) and every
input, `fill` accepts exactly `min(input.length, cap - len)` bytes,
never more than the remaining free capacity, appends exactly that
prefix of the input to the logical content, and leaves the capacity
unchanged; it is a total function (never blocks, never errors). -/
theorem c9_fill_backpressure (st : Parser) (input : List Nat)
    (_hinv : st.len ≤ st.cap) :
    (Parser.fill st input).1 = min input.length (st.cap - st.len) ∧
    (Parser.fill st input).1 ≤ st.cap - st.len ∧
    (Parser.fill st input).2.content =
      st.content ++ input.take (Parser.fill st input).1 ∧
    (Parser.fill st input).2.cap = st.cap := by
  refine ⟨rfl, min_le_right _ _, ?_, rfl⟩
  simp [Parser.fill, Parser.content, List.append_assoc]

theorem c9_fill_backpressure_witness :
    (Parser.fill ⟨4, [1], [2]⟩ [5, 6, 7]).1 = 2 ∧
    (Parser.fill ⟨4, [1], [2]⟩ [5, 6, 7]).1 ≤ 2 ∧
    (Parser.fill ⟨4, [1], [2]⟩ [5, 6, 7]).2.content = [1, 2, 5, 6] ∧
    (Parser.fill ⟨4, [1], [2]⟩ [5, 6, 7]).2.cap = 4 :=
  c9_fill_backpressure ⟨4, [1], [2]⟩ [5, 6, 7] (by decide)

theorem read_at_zero (st : Parser) (hfind : find_stx st = some 0)
    (h8 : ¬ st.len < HEADER_SIZE + FOOTER_SIZE) :
    Parser.read st =
      if st.body_size + HEADER_SIZE + FOOTER_SIZE > st.cap then
        .err (.junk ⟨STX.length⟩ .invalidLength)
      else if st.len < st.body_size + HEADER_SIZE + FOOTER_SIZE then
        .err .incomplete
      else if slices_read_u16
          (slices_start (slices_start st.data HEADER_SIZE) st.body_size)
          CRC_SIZE ≠ u16beOf ETX then
        .err (.junk ⟨STX.length⟩ .invalidEtx)
      else if slices_read_u16
          (slices_start (slices_start st.data HEADER_SIZE) st.body_size) 0 ≠
          crc16Update (crc16Update 0
            (slices_endx (slices_start st.data HEADER_SIZE) st.body_size).1)
            (slices_endx (slices_start st.data HEADER_SIZE) st.body_size).2
          then
        .err (.junk ⟨STX.length⟩ .invalidCrc)
      else .ok ⟨st.body_size⟩ := by
  unfold Parser.read
  rw [if_neg h8, hfind]

theorem find_stx_starts (st : Parser) (t : List Nat)
    (h : st.content = 0xeb :: 0x90 :: t) : find_stx st = some 0 := by
  obtain ⟨cap, a, b⟩ := st
  simp only [Parser.content] at h
  cases a with
  | nil =>
    rw [find_stx_nil]
    simp only [List.nil_append] at h
    rw [h]
    simp [stxPos]
  | cons x a' =>
    cases a' with
    | nil =>
      obtain ⟨hx, hb⟩ : x = 0xeb ∧ b = 0x90 :: t := by simpa using h
      subst hx
      subst hb
      unfold find_stx
      simp [stxPos, List.getD]
    | cons y a'' =>
      obtain ⟨hx, hy, -⟩ : x = 0xeb ∧ y = 0x90 ∧ a'' ++ b = t := by
        simpa using h
      subst hx
      subst hy
      unfold find_stx
      simp [stxPos]

/-- C3 counterexample: a buffer holding exactly the 8-byte header and
footer of a valid-looking frame that announces a 32-byte body which
fits the 64-byte capacity: the buffered length is not below 8, yet
`read` returns `incomplete`, refuting the claim that a buffered length
below 8 is the only circumstance producing `incomplete`. -/
theorem c3_incomplete_counterexample :
    ¬ Parser.len ⟨64, [0xeb, 0x90, 0x00, 0x20, 0, 0, 0, 0], []⟩ <
        HEADER_SIZE + FOOTER_SIZE ∧
    Parser.read ⟨64, [0xeb, 0x90, 0x00, 0x20, 0, 0, 0, 0], []⟩ =
      .err .incomplete := by
  decide

/-- C3 (amended): `read` returns `incomplete` if and only if the
buffered length is below the 8-byte header+footer size, or the STX
search finds a marker at offset 0 whose announced frame size fits the
capacity but exceeds the buffered length (a partially arrived frame). -/
theorem c3_incomplete_iff (st : Parser) :
    Parser.read st = .err .incomplete ↔
      (st.len < HEADER_SIZE + FOOTER_SIZE ∨
        (find_stx st = some 0 ∧
          st.body_size + HEADER_SIZE + FOOTER_SIZE ≤ st.cap ∧
          st.len < st.body_size + HEADER_SIZE + FOOTER_SIZE)) := by
  constructor
  · intro h
    unfold Parser.read at h
    split at h
    · rename_i h8
      exact Or.inl h8
    · split at h
      · rename_i heq
        split at h
        · simp at h
        · split at h
          · rename_i hover hinc
            exact Or.inr ⟨heq, by omega, hinc⟩
          · split at h
            · simp at h
            · split at h
              · simp at h
              · simp at h
      · simp at h
      · simp at h
  · intro h
    rcases h with h8 | ⟨hfind, hfit, hinc⟩
    · unfold Parser.read
      rw [if_pos h8]
    · by_cases h8 : st.len < HEADER_SIZE + FOOTER_SIZE
      · unfold Parser.read
        rw [if_pos h8]
      · rw [read_at_zero st hfind h8]
        rw [if_neg (by omega), if_pos hinc]

/-- C4 counterexample: a buffer holding only the 4-byte header whose
length field announces a frame far larger than the 12-byte capacity:
the header is fully available and the frame can never fit, yet `read`
returns `incomplete` rather than `invalidLength` junk, because the code
first waits for 8 buffered bytes. -/
theorem c4_oversized_counterexample :
    (Parser.content ⟨12, [0xeb, 0x90, 0xff, 0xff], []⟩).take 2 = STX ∧
    Parser.cap ⟨12, [0xeb, 0x90, 0xff, 0xff], []⟩ <
      Parser.body_size ⟨12, [0xeb, 0x90, 0xff, 0xff], []⟩ +
        HEADER_SIZE + FOOTER_SIZE ∧
    Parser.read ⟨12, [0xeb, 0x90, 0xff, 0xff], []⟩ = .err .incomplete ∧
    ¬ Parser.read ⟨12, [0xeb, 0x90, 0xff, 0xff], []⟩ =
        .err (.junk ⟨STX.length⟩ .invalidLength) := by
  decide

/-- C4 (amended): whenever the buffered content starts with the STX
marker, at least 8 bytes (header plus footer) are buffered, and the
16-bit length field implies a frame size beyond the buffer's capacity,
`read` returns `invalidLength` junk with eviction length equal to the
STX marker length, without waiting for the announced frame to arrive. -/
theorem c4_oversized_rejection (st : Parser) (t : List Nat)
    (hcontent : st.content = 0xeb :: 0x90 :: t)
    (h8 : HEADER_SIZE + FOOTER_SIZE ≤ st.len)
    (hover : st.cap < st.body_size + HEADER_SIZE + FOOTER_SIZE) :
    Parser.read st = .err (.junk ⟨STX.length⟩ .invalidLength) := by
  rw [read_at_zero st (find_stx_starts st t hcontent) (by omega)]
  rw [if_pos (by omega)]

theorem c4_oversized_rejection_witness :
    Parser.read ⟨12, [0xeb, 0x90, 0xff, 0xff, 0, 0, 0, 0], []⟩ =
      .err (.junk ⟨STX.length⟩ .invalidLength) :=
  c4_oversized_rejection ⟨12, [0xeb, 0x90, 0xff, 0xff, 0, 0, 0, 0], []⟩
    [0xff, 0xff, 0, 0, 0, 0] (by decide) (by decide) (by decide)

/-- C5 (code bug): on a body longer than 65,535 bytes the encoder
returns the error result, but the destination buffer is not left
unchanged — the source appends the STX marker to the destination
before performing the length check, so the failed call leaves a stray
`EB 90` behind. -/
theorem c5_encoder_mutates_dst_on_error :
    (encoderEncode (List.replicate 65536 0) []).1 = false ∧
    (encoderEncode (List.replicate 65536 0) []).2 = [0xeb, 0x90] := by
  have hfail : encoderEncode (List.replicate 65536 0) [] =
      (false, [] ++ STX) := by
    unfold encoderEncode
    rw [if_pos]
    rw [List.length_replicate]
    norm_num
  rw [hfail]
  exact ⟨rfl, rfl⟩

/-- C6 (code bug): a buffer state whose first slice has even length and
whose only STX occurrence straddles the slice boundary at logical
offset 1.  The first-occurrence search over the logical content (which
the claim describes) finds it at offset 1, so `read` should report
`invalidStx` junk with eviction length 1; but `find_stx` only checks
the straddling pair when the first slice's length is odd, misses the
marker entirely, and `read` reports `invalidStx` junk with eviction
length 7, discarding the STX marker itself. -/
theorem c6_straddle_missed :
    Parser.content ⟨16, [0x00, 0xeb], [0x90, 0x00, 0x04, 0xde, 0xad, 0xbe]⟩ =
      [0x00, 0xeb, 0x90, 0x00, 0x04, 0xde, 0xad, 0xbe] ∧
    stxPos (Parser.content ⟨16, [0x00, 0xeb],
        [0x90, 0x00, 0x04, 0xde, 0xad, 0xbe]⟩) = some 1 ∧
    find_stx ⟨16, [0x00, 0xeb], [0x90, 0x00, 0x04, 0xde, 0xad, 0xbe]⟩ =
      none ∧
    Parser.read ⟨16, [0x00, 0xeb], [0x90, 0x00, 0x04, 0xde, 0xad, 0xbe]⟩ =
      .err (.junk ⟨7⟩ .invalidStx) := by
  decide

/-- C7 (code bug): a buffer state whose logical content is exactly a
valid encoded frame (`encodeFrame [DE AD BE EF]`, stored checksum
`E5 9B` equal to the body's CRC-16) but whose body straddles the slice
boundary.  The claim says both footer checks pass and a frame token is
returned; instead `read` reports `invalidCrc` junk, because
`slices_endx` drops the first slice's part of the body, so the checksum
is computed over `BE EF` only. -/
theorem c7_split_body_crc :
    Parser.content ⟨12, [0xeb, 0x90, 0x00, 0x04, 0xde, 0xad],
        [0xbe, 0xef, 0xe5, 0x9b, 0xc5, 0x79]⟩ =
      encodeFrame [0xde, 0xad, 0xbe, 0xef] ∧
    crc16 [0xde, 0xad, 0xbe, 0xef] = 0xe59b ∧
    Parser.read ⟨12, [0xeb, 0x90, 0x00, 0x04, 0xde, 0xad],
        [0xbe, 0xef, 0xe5, 0x9b, 0xc5, 0x79]⟩ =
      .err (.junk ⟨2⟩ .invalidCrc) := by
  decide

end Eb90
